import Mathlib

/-!
Verification development for the LazyLoad resource-loading scheduler
(`lazyload.js`, version 2.0.0).  The JavaScript source is shallowly
embedded: the scheduler's mutable variables `pending` and `queue` become
fields of an explicit state record, callback invocations are recorded in a
log, JavaScript numbers are `Option ℚ` (with `none` playing the role of
`NaN`), and the user-agent regular expressions are modelled as scanners
over character lists.
-/

namespace LazyLoad

/-- JavaScript number as used for engine versions: `none` models `NaN`,
`some q` a finite value.  (Signs/exponents never occur in the version
captures, so rationals suffice.) -/
abbrev JSNum := Option ℚ

/-- JavaScript truthiness of a number: `NaN` and `0` are falsy. -/
def truthy : JSNum → Bool
  | none => false
  | some q => q != 0

/-- The `ua` record populated by `getUserAgent` (fields initialised to 0). -/
structure UA where
  gecko : JSNum
  ie : JSNum
  opera : JSNum
  webkit : JSNum
deriving DecidableEq

/-- The initial value `{gecko: 0, ie: 0, opera: 0, webkit: 0}`. -/
def zeroUA : UA := ⟨some 0, some 0, some 0, some 0⟩

/-! ### Regular-expression models

Each JS regex used by `getUserAgent` is a literal followed by a capture
group, matched at the leftmost possible position.  `tryAll p s` runs the
pattern `p` at every suffix of `s`, left to right, returning the first
success — the leftmost-match behaviour of `String.prototype.match`. -/

/-- Try a pattern at each suffix, leftmost first (leftmost regex match). -/
def tryAll {α : Type} (p : List Char → Option α) : List Char → Option α
  | [] => p []
  | c :: rest =>
    match p (c :: rest) with
    | some r => some r
    | none => tryAll p rest

/-- Match a literal at the head of the input, then continue with `k` on
the remainder. -/
def litThen {α : Type} (lit : List Char) (k : List Char → Option α)
    (s : List Char) : Option α :=
  if lit.isPrefixOf s then k (s.drop lit.length) else none

/-- `/AppleWebKit\/(\S*)/` with the code's `m && m[1]` gate: a match with
an empty capture behaves like no match (falls through to the next test). -/
def webkitOk (nua : List Char) : Option (List Char) :=
  match tryAll (litThen "AppleWebKit/".data
      (fun r => some (r.takeWhile (fun c => !c.isWhitespace)))) nua with
  | some c => if c.isEmpty then none else some c
  | none => none

/-- `/MSIE\s([^;]*)/` with the `m && m[1]` gate. -/
def msieOk (nua : List Char) : Option (List Char) :=
  match tryAll (fun s =>
      if "MSIE".data.isPrefixOf s then
        match s.drop 4 with
        | c :: r =>
          if c.isWhitespace then some (r.takeWhile (fun ch => ch ≠ ';'))
          else none
        | [] => none
      else none) nua with
  | some c => if c.isEmpty then none else some c
  | none => none

/-- `/Gecko\/(\S*)/.test(nua)`: the capture may be empty, so the test
succeeds exactly when `Gecko/` occurs as a substring. -/
def geckoTest (nua : List Char) : Bool :=
  (tryAll (litThen "Gecko/".data (fun r => some r)) nua).isSome

/-- `/rv:([^\s\)]*)/` capture. -/
def rvCapture (nua : List Char) : Option (List Char) :=
  tryAll (litThen "rv:".data
    (fun r => some (r.takeWhile (fun c => !c.isWhitespace && c ≠ ')')))) nua

/-- `/Opera\/(\S*)/` capture (the code checks only `m`, not `m[1]`, so an
empty capture is passed to `parseFloat`). -/
def operaCapture (nua : List Char) : Option (List Char) :=
  tryAll (litThen "Opera/".data
    (fun r => some (r.takeWhile (fun c => !c.isWhitespace)))) nua

/-- Value of a digit string. -/
def digitsToNat (ds : List Char) : Nat :=
  ds.foldl (fun a c => 10 * a + (c.toNat - 48)) 0

/-- Model of the host's `parseFloat` on the version captures: an optional
integer part and an optional fraction; no digits at all yields `NaN`
(`none`).  Signs and exponents never occur in these captures and are not
modelled. -/
def parseJSFloat (cs : List Char) : JSNum :=
  let intPart := cs.takeWhile (fun c => c.isDigit)
  let rest := cs.dropWhile (fun c => c.isDigit)
  let frac :=
    match rest with
    | '.' :: r => r.takeWhile (fun c => c.isDigit)
    | _ => []
  if intPart.isEmpty && frac.isEmpty then none
  else some ((digitsToNat intPart : ℚ) + (digitsToNat frac : ℚ) / (10 ^ frac.length : ℚ))

/-- The body of `getUserAgent` (lines 340–367): first-match-wins chain
AppleWebKit → MSIE → Gecko (with `rv:` refinement) → Opera, starting from
the all-zero record. -/
def computeUA (nua : List Char) : UA :=
  match webkitOk nua with
  | some c => { zeroUA with webkit := parseJSFloat c }
  | none =>
    match msieOk nua with
    | some c => { zeroUA with ie := parseJSFloat c }
    | none =>
      if geckoTest nua then
        { zeroUA with gecko :=
            match rvCapture nua with
            | some c => if c.isEmpty then some 1 else parseJSFloat c
            | none => some 1 }
      else
        match operaCapture nua with
        | some c => { zeroUA with opera := parseJSFloat c }
        | none => zeroUA

/-- `getUserAgent` with its memoisation guard `if (ua) { return; }`:
given the cached value (if any), return the profile in effect. -/
def getUserAgent (cached : Option UA) (nua : List Char) : UA :=
  match cached with
  | some u => u
  | none => computeUA nua

/-! ### Scheduler data model -/

/-- Resource kind: the `type` strings `'css'` and `'js'`. -/
inductive Kind where
  | css
  | js
deriving DecidableEq

/-- The shape of a callback invocation, mirroring the three call sites in
`finish`: `callback.call(obj)` (bound to `obj`, no argument),
`callback.call(window, obj)` (unbound, `obj` as the sole argument), and
`callback.call()` (unbound, no argument). -/
inductive CallForm where
  | boundNoArg (o : Nat)
  | windowArg (o : Nat)
  | plain
deriving DecidableEq

/-- A recorded callback invocation: which callback fired and how. -/
structure Invocation where
  cb : Nat
  form : CallForm
deriving DecidableEq

/-- A queued request object (lines 391–407): the URL list still to
finish, the callback (identified by a number; `none` = `null`), the
optional `obj`, the `scope` flag and the resource kind. -/
structure Batch where
  urls : List String
  callback : Option Nat
  obj : Option Nat
  scope : Bool
  type : Kind
deriving DecidableEq

/-- Scheduler state: the private variables `pending` and `queue`, plus a
log of callback invocations (observable behaviour). -/
structure SchedState where
  pending : Option Batch
  queue : List Batch
  log : List Invocation
deriving DecidableEq

/-- Initial state: `pending` unset, `queue = []`. -/
def initState : SchedState := ⟨none, [], []⟩

/-- The `urls` argument of the public API: a single URL string or an
array of URL strings. -/
inductive UrlsArg where
  | str (u : String)
  | arr (l : List String)
deriving DecidableEq

/-- JavaScript truthiness of the `urls` argument: the empty string is
falsy; every array (even an empty one) is truthy. -/
def truthyArg : UrlsArg → Bool
  | .str u => !u.isEmpty
  | .arr _ => true

/-- `urls = urls.constructor === Array ? urls : [urls]` (line 378). -/
def normalizeUrls : UrlsArg → List String
  | .str u => [u]
  | .arr l => l

/-- The splitting loop (lines 399–407): one single-URL batch per URL, the
callback attached only to the last one (`i === len - 1 ? callback : null`). -/
def splitBatches (t : Kind) (cb : Option Nat) (obj : Option Nat) (sc : Bool) :
    List String → List Batch
  | [] => []
  | [u] => [⟨[u], cb, obj, sc, t⟩]
  | u :: v :: rest => ⟨[u], none, obj, sc, t⟩ :: splitBatches t cb obj sc (v :: rest)

/-- Lines 376–409 of `load`: if `type` and `urls` are both truthy, push
either one batch holding the whole (copied) URL list — when the kind is
`css` or the profile is Gecko or Opera — or one single-URL batch per URL. -/
def enqueuePhase (ua : UA) (t : Option Kind) (uarg : Option UrlsArg)
    (cb : Option Nat) (obj : Option Nat) (sc : Bool) (s : SchedState) : SchedState :=
  match t, uarg with
  | some k, some ua2 =>
    if truthyArg ua2 then
      let urls := normalizeUrls ua2
      if k = Kind.css ∨ truthy ua.gecko ∨ truthy ua.opera then
        { s with queue := s.queue ++ [⟨urls, cb, obj, sc, k⟩] }
      else
        { s with queue := s.queue ++ splitBatches k cb obj sc urls }
    else s
  | _, _ => s

/-- Lines 411–414 of `load`: `if (pending || !(pending = queue.shift()))
return` — when nothing is in flight, move the queue head (if any) into the
in-flight slot. -/
def drainPhase (s : SchedState) : SchedState :=
  match s.pending with
  | some _ => s
  | none =>
    match s.queue with
    | [] => s
    | b :: rest => { s with pending := some b, queue := rest }

/-- The private `load` function: enqueue phase followed by drain phase.
(The injection loop touches only the DOM; its detection-strategy choice is
modelled separately by `selectDetection`/`injectBatch`.) -/
def load (ua : UA) (t : Option Kind) (uarg : Option UrlsArg) (cb : Option Nat)
    (obj : Option Nat) (sc : Bool) (s : SchedState) : SchedState :=
  drainPhase (enqueuePhase ua t uarg cb obj sc s)

/-- The callback dispatch in `finish` (lines 305–314): branch on `obj`
then on `scope`. -/
def callbackCall (obj : Option Nat) (sc : Bool) : CallForm :=
  match obj with
  | some o => if sc then .boundNoArg o else .windowArg o
  | none => .plain

/-- Log entries produced when a batch finalises: one invocation if it
carries a callback (`if (callback)`), none otherwise. -/
def cbLog (b : Batch) : List Invocation :=
  match b.callback with
  | some c => [⟨c, callbackCall b.obj b.scope⟩]
  | none => []

/-- `finish` (lines 293–323): ignore the signal if nothing is pending;
otherwise shift one URL off the pending batch; if none remain, run the
callback, clear `pending`, and (if the queue is nonempty) call `load()`
with no arguments, which reduces to the drain phase. -/
def finish (s : SchedState) : SchedState :=
  match s.pending with
  | none => s
  | some b =>
    let urls := b.urls.tail
    if urls.isEmpty then
      let s1 : SchedState := ⟨none, s.queue, s.log ++ cbLog b⟩
      if s1.queue.isEmpty then s1 else drainPhase s1
    else
      { s with pending := some { b with urls := urls } }

/-- Public entry point `css` (lines 456–458). -/
def css (ua : UA) (uarg : UrlsArg) (cb : Option Nat) (obj : Option Nat)
    (sc : Bool) (s : SchedState) : SchedState :=
  load ua (some Kind.css) (some uarg) cb obj sc s

/-- Public entry point `js` (lines 460–462). -/
def js (ua : UA) (uarg : UrlsArg) (cb : Option Nat) (obj : Option Nat)
    (sc : Bool) (s : SchedState) : SchedState :=
  load ua (some Kind.js) (some uarg) cb obj sc s

/-! ### Completion detection (lines 434–449) -/

/-- The three completion-detection strategies. -/
inductive Strategy where
  | readyState
  | timer (ms : Nat)
  | loadAndError
deriving DecidableEq

/-- The strategy chosen for each node injected for a batch (lines
434–449): `ua.ie` ⇒ ready-state watcher; else stylesheet under Gecko or
WebKit ⇒ deferred `setTimeout(finish, 100 * len)`; else
`node.onload = node.onerror = finish`. -/
def selectDetection (t : Kind) (ua : UA) (len : Nat) : Strategy :=
  if truthy ua.ie then .readyState
  else if t = Kind.css ∧ (truthy ua.gecko ∨ truthy ua.webkit) then .timer (100 * len)
  else .loadAndError

/-- The injection loop (lines 421–452) as seen by the detection layer:
every URL of the batch gets a node with the strategy selected from the
batch's kind, the profile, and the batch's URL count. -/
def injectBatch (ua : UA) (b : Batch) : List (String × Strategy) :=
  b.urls.map (fun u => (u, selectDetection b.type ua b.urls.length))

/-- The ready-state watcher (lines 435–442): while subscribed, a
transition to `loaded` or `complete` unsubscribes
(`this.onreadystatechange = null`) and fires `finish`.  Returns the new
subscription flag and the new scheduler state. -/
def onreadystatechange (subscribed : Bool) (rs : String) (s : SchedState) :
    Bool × SchedState :=
  if subscribed then
    if rs = "loaded" ∨ rs = "complete" then (false, finish s)
    else (true, s)
  else (false, s)

/-- A node's completion signals. -/
inductive NodeEvent where
  | success
  | failure
deriving DecidableEq

/-- The handler a strategy installs for a node's success signal
(`onload`); only the dual-event strategy installs one, and it is `finish`
itself (line 448). -/
def nodeOnload : Strategy → Option (SchedState → SchedState)
  | .loadAndError => some finish
  | _ => none

/-- The handler a strategy installs for a node's failure signal
(`onerror`); only the dual-event strategy installs one, and it is `finish`
itself (line 448). -/
def nodeOnerror : Strategy → Option (SchedState → SchedState)
  | .loadAndError => some finish
  | _ => none

/-! ### Derived notions used by the theorems -/

/-- Iterated finish signals. -/
def finishN : Nat → SchedState → SchedState
  | 0, s => s
  | n + 1, s => finishN n (finish s)

/-- Total number of URLs across a list of batches. -/
def sumUrls (q : List Batch) : Nat := (q.map (fun b => b.urls.length)).sum

/-- Log entries contributed by a list of batches, in order. -/
def cbLogs : List Batch → List Invocation
  | [] => []
  | b :: q => cbLog b ++ cbLogs q

/-- The batches `load` creates for one request `(urls, cb)` of kind `k`
(with no `obj` and `scope` unset). -/
def batchesOf (ua : UA) (k : Kind) (r : List String × Nat) : List Batch :=
  if k = Kind.css ∨ truthy ua.gecko ∨ truthy ua.opera then
    [⟨r.1, some r.2, none, false, k⟩]
  else
    splitBatches k (some r.2) none false r.1

/-- All batches created by a sequence of requests. -/
def allBatches (ua : UA) (k : Kind) : List (List String × Nat) → List Batch
  | [] => []
  | r :: rs => batchesOf ua k r ++ allBatches ua k rs

/-- Back-to-back submissions of requests of one kind, each with a
callback. -/
def submitAll (ua : UA) (k : Kind) (reqs : List (List String × Nat))
    (s : SchedState) : SchedState :=
  reqs.foldl (fun s r => load ua (some k) (some (.arr r.1)) (some r.2) none false s) s

/-- The single-slot invariant: a nonempty queue implies a batch is in
flight (the queue is drained the moment the slot empties). -/
def Inv (s : SchedState) : Prop := s.queue ≠ [] → s.pending.isSome

/-! ### Basic lemmas about the scheduler operations -/

theorem enqueuePhase_pending (ua : UA) (t : Option Kind) (uarg : Option UrlsArg)
    (cb obj : Option Nat) (sc : Bool) (s : SchedState) :
    (enqueuePhase ua t uarg cb obj sc s).pending = s.pending := by
  cases t with
  | none => cases uarg <;> rfl
  | some k =>
    cases uarg with
    | none => rfl
    | some a =>
      simp only [enqueuePhase]
      by_cases h : truthyArg a = true
      · simp only [h, if_true]
        split <;> rfl
      · simp only [Bool.not_eq_true] at h
        simp [h]

theorem enqueuePhase_log (ua : UA) (t : Option Kind) (uarg : Option UrlsArg)
    (cb obj : Option Nat) (sc : Bool) (s : SchedState) :
    (enqueuePhase ua t uarg cb obj sc s).log = s.log := by
  cases t with
  | none => cases uarg <;> rfl
  | some k =>
    cases uarg with
    | none => rfl
    | some a =>
      simp only [enqueuePhase]
      by_cases h : truthyArg a = true
      · simp only [h, if_true]
        split <;> rfl
      · simp only [Bool.not_eq_true] at h
        simp [h]

theorem drainPhase_of_pending {s : SchedState} {b : Batch}
    (h : s.pending = some b) : drainPhase s = s := by
  obtain ⟨p, q, l⟩ := s
  cases p with
  | none => simp at h
  | some b' => rfl

theorem drainPhase_pending_of_pending {s : SchedState} {b : Batch}
    (h : s.pending = some b) : (drainPhase s).pending = some b := by
  rw [drainPhase_of_pending h]; exact h

theorem inv_drainPhase (s : SchedState) : Inv (drainPhase s) := by
  obtain ⟨p, q, l⟩ := s
  cases p with
  | some b => intro _; rfl
  | none =>
    cases q with
    | nil => intro h; exact absurd rfl h
    | cons b rest => intro _; rfl

theorem drainPhase_of_inv {s : SchedState} (h : Inv s) : drainPhase s = s := by
  obtain ⟨p, q, l⟩ := s
  cases p with
  | some b => rfl
  | none =>
    cases q with
    | nil => rfl
    | cons b rest => exact absurd (h (by simp)) (by simp)

theorem load_pending_of_pending (ua : UA) (t : Option Kind) (uarg : Option UrlsArg)
    (cb obj : Option Nat) (sc : Bool) {s : SchedState} {b : Batch}
    (h : s.pending = some b) :
    (load ua t uarg cb obj sc s).pending = some b := by
  unfold load
  exact drainPhase_pending_of_pending ((enqueuePhase_pending ua t uarg cb obj sc s).trans h)

theorem finishN_add (m n : Nat) (s : SchedState) :
    finishN (m + n) s = finishN n (finishN m s) := by
  induction m generalizing s with
  | zero => simp [finishN, Nat.zero_add]
  | succ m ih =>
    have h1 : m + 1 + n = (m + n) + 1 := by omega
    rw [h1]
    show finishN (m + n) (finish s) = finishN n (finishN m (finish s))
    exact ih (finish s)

theorem run_batch (b : Batch) (q : List Batch) (l : List Invocation)
    (h : b.urls ≠ []) :
    finishN b.urls.length ⟨some b, q, l⟩ = drainPhase ⟨none, q, l ++ cbLog b⟩ := by
  obtain ⟨us, cbo, obj, sc, k⟩ := b
  induction us with
  | nil => exact absurd rfl h
  | cons u tail ih =>
    cases tail with
    | nil =>
      show finishN 1 ⟨some ⟨[u], cbo, obj, sc, k⟩, q, l⟩ = _
      show finishN 0 (finish _) = _
      show finish ⟨some ⟨[u], cbo, obj, sc, k⟩, q, l⟩ = _
      simp only [finish, List.tail_cons, List.isEmpty_nil, if_true]
      cases q with
      | nil => rfl
      | cons b' rest => rfl
    | cons v rest =>
      have step : finish ⟨some ⟨u :: v :: rest, cbo, obj, sc, k⟩, q, l⟩
          = ⟨some ⟨v :: rest, cbo, obj, sc, k⟩, q, l⟩ := by
        simp [finish]
      show finishN ((v :: rest).length + 1) _ = _
      show finishN (v :: rest).length (finish _) = _
      rw [step]
      exact ih (by simp)

theorem run_queue (q : List Batch) :
    ∀ (b : Batch) (l : List Invocation), b.urls ≠ [] → (∀ b' ∈ q, b'.urls ≠ []) →
    finishN (b.urls.length + sumUrls q) ⟨some b, q, l⟩
      = ⟨none, [], l ++ cbLog b ++ cbLogs q⟩ := by
  induction q with
  | nil =>
    intro b l hb _
    show finishN (b.urls.length + 0) _ = _
    rw [Nat.add_zero, run_batch b [] l hb]
    simp [drainPhase, cbLogs]
  | cons b' q' ih =>
    intro b l hb hq
    have hsum : sumUrls (b' :: q') = b'.urls.length + sumUrls q' := by
      simp [sumUrls]
    rw [hsum, finishN_add, run_batch b (b' :: q') l hb]
    have hd : drainPhase ⟨none, b' :: q', l ++ cbLog b⟩
        = ⟨some b', q', l ++ cbLog b⟩ := rfl
    rw [hd, ih b' (l ++ cbLog b) (hq b' (by simp)) (fun x hx => hq x (by simp [hx]))]
    simp [cbLogs, List.append_assoc]

theorem run_all (q : List Batch) (l : List Invocation)
    (h : ∀ b ∈ q, b.urls ≠ []) :
    finishN (sumUrls q) (drainPhase ⟨none, q, l⟩) = ⟨none, [], l ++ cbLogs q⟩ := by
  cases q with
  | nil => simp [sumUrls, drainPhase, finishN, cbLogs]
  | cons b t =>
    have hd : drainPhase ⟨none, b :: t, l⟩ = ⟨some b, t, l⟩ := rfl
    have hsum : sumUrls (b :: t) = b.urls.length + sumUrls t := by simp [sumUrls]
    rw [hd, hsum, run_queue t b l (h b (by simp)) (fun x hx => h x (by simp [hx]))]
    simp [cbLogs, List.append_assoc]

/-! ### Lemmas about the batches a request creates -/

theorem splitBatches_length (t : Kind) (cb obj : Option Nat) (sc : Bool) :
    ∀ us : List String, (splitBatches t cb obj sc us).length = us.length := by
  intro us
  induction us with
  | nil => rfl
  | cons u tail ih =>
    cases tail with
    | nil => rfl
    | cons v rest => simpa [splitBatches] using ih

theorem splitBatches_urls (t : Kind) (cb obj : Option Nat) (sc : Bool) :
    ∀ us : List String,
      (splitBatches t cb obj sc us).map (fun b => b.urls) = us.map (fun u => [u]) := by
  intro us
  induction us with
  | nil => rfl
  | cons u tail ih =>
    cases tail with
    | nil => rfl
    | cons v rest => simpa [splitBatches] using ih

theorem splitBatches_callbacks (t : Kind) (cb obj : Option Nat) (sc : Bool) :
    ∀ us : List String, us ≠ [] →
      (splitBatches t cb obj sc us).map (fun b => b.callback)
        = List.replicate (us.length - 1) none ++ [cb] := by
  intro us
  induction us with
  | nil => intro h; exact absurd rfl h
  | cons u tail ih =>
    intro _
    cases tail with
    | nil => rfl
    | cons v rest =>
      have h2 := ih (by simp)
      simp only [splitBatches, List.map_cons, h2]
      simp [List.replicate_succ]

theorem splitBatches_ne_nil (t : Kind) (cb obj : Option Nat) (sc : Bool)
    {us : List String} (h : us ≠ []) : splitBatches t cb obj sc us ≠ [] := by
  cases us with
  | nil => exact absurd rfl h
  | cons u tail => cases tail <;> simp [splitBatches]

theorem splitBatches_urls_ne_nil (t : Kind) (cb obj : Option Nat) (sc : Bool) :
    ∀ us : List String, ∀ b ∈ splitBatches t cb obj sc us, b.urls ≠ [] := by
  intro us
  induction us with
  | nil => intro b hb; simp [splitBatches] at hb
  | cons u tail ih =>
    intro b hb
    cases tail with
    | nil =>
      simp only [splitBatches, List.mem_singleton] at hb
      subst hb; simp
    | cons v rest =>
      simp only [splitBatches, List.mem_cons] at hb
      rcases hb with hb | hb
      · subst hb; simp
      · exact ih b hb

theorem sumUrls_cons (b : Batch) (q : List Batch) :
    sumUrls (b :: q) = b.urls.length + sumUrls q := by
  simp [sumUrls]

theorem sumUrls_splitBatches (t : Kind) (cb obj : Option Nat) (sc : Bool) :
    ∀ us : List String, sumUrls (splitBatches t cb obj sc us) = us.length := by
  intro us
  induction us with
  | nil => rfl
  | cons u tail ih =>
    cases tail with
    | nil => rfl
    | cons v rest =>
      show sumUrls (⟨[u], none, obj, sc, t⟩ :: splitBatches t cb obj sc (v :: rest)) = _
      rw [sumUrls_cons, ih]
      simp
      omega

theorem cbLogs_splitBatches (t : Kind) (c : Nat) (obj : Option Nat) (sc : Bool) :
    ∀ us : List String, us ≠ [] →
      cbLogs (splitBatches t (some c) obj sc us) = [⟨c, callbackCall obj sc⟩] := by
  intro us
  induction us with
  | nil => intro h; exact absurd rfl h
  | cons u tail ih =>
    intro _
    cases tail with
    | nil => rfl
    | cons v rest =>
      show cbLogs (⟨[u], none, obj, sc, t⟩ :: splitBatches t (some c) obj sc (v :: rest)) = _
      simp only [cbLogs, cbLog]
      exact ih (by simp)

theorem batchesOf_ne_nil (ua : UA) (k : Kind) {r : List String × Nat}
    (h : r.1 ≠ []) : batchesOf ua k r ≠ [] := by
  unfold batchesOf
  split
  · simp
  · exact splitBatches_ne_nil k (some r.2) none false h

theorem batchesOf_urls_ne_nil (ua : UA) (k : Kind) {r : List String × Nat}
    (h : r.1 ≠ []) : ∀ b ∈ batchesOf ua k r, b.urls ≠ [] := by
  unfold batchesOf
  split
  · intro b hb
    simp only [List.mem_singleton] at hb
    subst hb; exact h
  · exact splitBatches_urls_ne_nil k (some r.2) none false r.1

theorem sumUrls_batchesOf (ua : UA) (k : Kind) (r : List String × Nat) :
    sumUrls (batchesOf ua k r) = r.1.length := by
  unfold batchesOf
  split
  · simp [sumUrls]
  · exact sumUrls_splitBatches k (some r.2) none false r.1

theorem cbLogs_batchesOf (ua : UA) (k : Kind) {r : List String × Nat}
    (h : r.1 ≠ []) : cbLogs (batchesOf ua k r) = [⟨r.2, CallForm.plain⟩] := by
  unfold batchesOf
  split
  · simp [cbLogs, cbLog, callbackCall]
  · exact cbLogs_splitBatches k r.2 none false r.1 h

theorem cbLogs_append (a b : List Batch) : cbLogs (a ++ b) = cbLogs a ++ cbLogs b := by
  induction a with
  | nil => simp [cbLogs]
  | cons x xs ih => simp [cbLogs, ih]

theorem sumUrls_append (a b : List Batch) : sumUrls (a ++ b) = sumUrls a + sumUrls b := by
  simp [sumUrls]

theorem allBatches_urls_ne_nil (ua : UA) (k : Kind) :
    ∀ reqs : List (List String × Nat), (∀ r ∈ reqs, r.1 ≠ []) →
      ∀ b ∈ allBatches ua k reqs, b.urls ≠ [] := by
  intro reqs
  induction reqs with
  | nil => intro _ b hb; simp [allBatches] at hb
  | cons r rs ih =>
    intro h b hb
    simp only [allBatches, List.mem_append] at hb
    rcases hb with hb | hb
    · exact batchesOf_urls_ne_nil ua k (h r (by simp)) b hb
    · exact ih (fun x hx => h x (by simp [hx])) b hb

theorem sumUrls_allBatches (ua : UA) (k : Kind) :
    ∀ reqs : List (List String × Nat),
      sumUrls (allBatches ua k reqs) = (reqs.map (fun r => r.1.length)).sum := by
  intro reqs
  induction reqs with
  | nil => rfl
  | cons r rs ih =>
    simp only [allBatches, sumUrls_append, sumUrls_batchesOf, List.map_cons,
      List.sum_cons, ih]

theorem cbLogs_allBatches (ua : UA) (k : Kind) :
    ∀ reqs : List (List String × Nat), (∀ r ∈ reqs, r.1 ≠ []) →
      cbLogs (allBatches ua k reqs) = reqs.map (fun r => ⟨r.2, CallForm.plain⟩) := by
  intro reqs
  induction reqs with
  | nil => intro _; rfl
  | cons r rs ih =>
    intro h
    simp only [allBatches, cbLogs_append, cbLogs_batchesOf ua k (h r (by simp)),
      ih (fun x hx => h x (by simp [hx])), List.map_cons]
    rfl

/-! ### Lemmas about submissions -/

theorem load_arr_of_pending (ua : UA) (k : Kind) (us : List String) (c : Nat)
    {s : SchedState} {b : Batch} (hp : s.pending = some b) :
    load ua (some k) (some (.arr us)) (some c) none false s
      = { s with queue := s.queue ++ batchesOf ua k (us, c) } := by
  unfold load enqueuePhase
  simp only [truthyArg, if_true, normalizeUrls]
  have hq : ∀ s' : SchedState, s'.pending = some b → drainPhase s' = s' :=
    fun s' h => drainPhase_of_pending h
  unfold batchesOf
  split
  · exact hq _ (by simpa using hp)
  · exact hq _ (by simpa using hp)

theorem submitAll_of_pending (ua : UA) (k : Kind) :
    ∀ (reqs : List (List String × Nat)) {s : SchedState} {b : Batch},
      s.pending = some b →
      submitAll ua k reqs s = { s with queue := s.queue ++ allBatches ua k reqs } := by
  intro reqs
  induction reqs with
  | nil => intro s b _; simp [submitAll, allBatches]
  | cons r rs ih =>
    intro s b hp
    show submitAll ua k rs (load ua (some k) (some (.arr r.1)) (some r.2) none false s)
      = _
    rw [load_arr_of_pending ua k r.1 r.2 hp]
    rw [ih (b := b) (by simpa using hp)]
    simp [allBatches, List.append_assoc]

theorem submitAll_initState (ua : UA) (k : Kind)
    (reqs : List (List String × Nat)) (h : ∀ r ∈ reqs, r.1 ≠ []) :
    submitAll ua k reqs initState = drainPhase ⟨none, allBatches ua k reqs, []⟩ := by
  cases reqs with
  | nil => rfl
  | cons r rs =>
    show submitAll ua k rs (load ua (some k) (some (.arr r.1)) (some r.2) none false initState)
      = _
    have h1 : load ua (some k) (some (.arr r.1)) (some r.2) none false initState
        = drainPhase ⟨none, batchesOf ua k (r.1, r.2), []⟩ := by
      unfold load enqueuePhase initState
      simp only [truthyArg, if_true, normalizeUrls]
      unfold batchesOf
      split <;> rfl
    rw [h1]
    obtain ⟨b0, t, hbt⟩ : ∃ b0 t, batchesOf ua k (r.1, r.2) = b0 :: t := by
      cases hbo : batchesOf ua k (r.1, r.2) with
      | nil => exact absurd hbo (batchesOf_ne_nil ua k (h r (by simp)))
      | cons b0 t => exact ⟨b0, t, rfl⟩
    rw [hbt]
    have h2 : drainPhase ⟨none, b0 :: t, []⟩ = ⟨some b0, t, []⟩ := rfl
    rw [h2, submitAll_of_pending ua k rs (b := b0) rfl]
    show (⟨some b0, t ++ allBatches ua k rs, []⟩ : SchedState) = _
    have h3 : allBatches ua k ((r.1, r.2) :: rs)
        = batchesOf ua k (r.1, r.2) ++ allBatches ua k rs := rfl
    have h4 : drainPhase ⟨none, (b0 :: t) ++ allBatches ua k rs, []⟩
        = ⟨some b0, t ++ allBatches ua k rs, []⟩ := rfl
    rw [show allBatches ua k (r :: rs) = batchesOf ua k r ++ allBatches ua k rs from rfl]
    rw [show batchesOf ua k r = batchesOf ua k (r.1, r.2) from rfl, hbt]
    exact h4.symm

/-! ### Case lemmas for `finish` -/

theorem finish_idle {s : SchedState} (h : s.pending = none) : finish s = s := by
  obtain ⟨p, q, l⟩ := s
  cases p with
  | none => rfl
  | some b => simp at h

theorem finish_decrement {s : SchedState} {b : Batch} (hp : s.pending = some b)
    (hlen : 1 < b.urls.length) :
    finish s = { s with pending := some { b with urls := b.urls.tail } } := by
  obtain ⟨p, q, l⟩ := s
  cases p with
  | none => simp at hp
  | some b0 =>
    simp only [Option.some.injEq] at hp
    subst hp
    obtain ⟨us, cbo, obj, sc, k⟩ := b0
    cases us with
    | nil => simp at hlen
    | cons u tail =>
      cases tail with
      | nil => simp at hlen
      | cons v rest => simp [finish]

theorem finish_finalize {s : SchedState} {b : Batch} (hp : s.pending = some b)
    (hlen : b.urls.length = 1) :
    finish s = drainPhase ⟨none, s.queue, s.log ++ cbLog b⟩ := by
  obtain ⟨p, q, l⟩ := s
  cases p with
  | none => simp at hp
  | some b0 =>
    simp only [Option.some.injEq] at hp
    subst hp
    obtain ⟨us, cbo, obj, sc, k⟩ := b0
    cases us with
    | nil => simp at hlen
    | cons u tail =>
      cases tail with
      | cons v rest => simp at hlen
      | nil =>
        show finish ⟨some ⟨[u], cbo, obj, sc, k⟩, q, l⟩ = _
        simp only [finish, List.tail_cons, List.isEmpty_nil, if_true]
        cases q with
        | nil => rfl
        | cons b' rest => rfl

theorem drainPhase_log (s : SchedState) : (drainPhase s).log = s.log := by
  obtain ⟨p, q, l⟩ := s
  cases p with
  | some b => rfl
  | none => cases q <;> rfl

/-! ### Claim C1 -/

/-- C1 counterexample: starting from the idle scheduler, put a stylesheet
batch in flight and submit a script batch.  Although no script batch is in
flight, the script batch stays in the queue and is started only by the
stylesheet batch's finish signal: the two kinds share one in-flight slot,
so a stylesheet batch in flight does prevent a queued script batch from
being dequeued and started. -/
theorem css_blocks_js_cex :
    (load zeroUA (some Kind.js) (some (.arr ["b.js"])) (some 1) none false
        (load zeroUA (some Kind.css) (some (.arr ["a.css"])) (some 0) none false
          initState)).pending
      = some ⟨["a.css"], some 0, none, false, Kind.css⟩ ∧
    (load zeroUA (some Kind.js) (some (.arr ["b.js"])) (some 1) none false
        (load zeroUA (some Kind.css) (some (.arr ["a.css"])) (some 0) none false
          initState)).queue
      = [⟨["b.js"], some 1, none, false, Kind.js⟩] ∧
    (finish (load zeroUA (some Kind.js) (some (.arr ["b.js"])) (some 1) none false
        (load zeroUA (some Kind.css) (some (.arr ["a.css"])) (some 0) none false
          initState))).pending
      = some ⟨["b.js"], some 1, none, false, Kind.js⟩ := by
  decide

/-- C1 (amended): the scheduler has a single queue and a single in-flight
slot shared by both resource kinds.  While any batch — of either kind — is
in flight, a submission of either kind never changes the slot (it is only
queued), and the single-slot invariant (a nonempty queue implies an
occupied slot) holds initially and is preserved by every `load` and every
`finish`, so the queue drains into the shared slot only when the slot is
empty. -/
theorem shared_slot_blocks_all_kinds :
    (∀ (ua : UA) (t : Option Kind) (uarg : Option UrlsArg) (cb obj : Option Nat)
        (sc : Bool) (s : SchedState) (b : Batch), s.pending = some b →
        (load ua t uarg cb obj sc s).pending = some b) ∧
    Inv initState ∧
    (∀ (ua : UA) (t : Option Kind) (uarg : Option UrlsArg) (cb obj : Option Nat)
        (sc : Bool) (s : SchedState), Inv (load ua t uarg cb obj sc s)) ∧
    (∀ s : SchedState, Inv s → Inv (finish s)) := by
  refine ⟨fun ua t uarg cb obj sc s b h => load_pending_of_pending ua t uarg cb obj sc h,
    fun h => absurd rfl h,
    fun ua t uarg cb obj sc s => inv_drainPhase _,
    ?_⟩
  intro s hs
  obtain ⟨p, q, l⟩ := s
  cases p with
  | none => exact hs
  | some b =>
    obtain ⟨us, cbo, obj, sc, k⟩ := b
    cases us with
    | nil =>
      cases q with
      | nil => intro hq; exact absurd rfl hq
      | cons b' rest => intro _; rfl
    | cons u tail =>
      cases tail with
      | nil =>
        rw [finish_finalize (b := ⟨[u], cbo, obj, sc, k⟩) rfl rfl]
        exact inv_drainPhase _
      | cons v rest =>
        rw [finish_decrement (b := ⟨u :: v :: rest, cbo, obj, sc, k⟩) rfl (by simp)]
        intro _; rfl

/-- C1 witness: with a stylesheet batch concretely in flight, submitting a
script batch leaves the stylesheet batch in the slot. -/
theorem shared_slot_blocks_all_kinds_witness :
    ((⟨some ⟨["a"], none, none, false, Kind.css⟩, [], []⟩ : SchedState).pending
      = some ⟨["a"], none, none, false, Kind.css⟩) ∧
    (load zeroUA (some Kind.js) (some (.arr ["b"])) none none false
        ⟨some ⟨["a"], none, none, false, Kind.css⟩, [], []⟩).pending
      = some ⟨["a"], none, none, false, Kind.css⟩ :=
  ⟨rfl, shared_slot_blocks_all_kinds.1 zeroUA (some Kind.js) (some (.arr ["b"]))
    none none false ⟨some ⟨["a"], none, none, false, Kind.css⟩, [], []⟩
    ⟨["a"], none, none, false, Kind.css⟩ rfl⟩

/-! ### Claim C3 -/

/-- C3 counterexample: a stylesheet request with an *empty URL array* is
not rejected: it creates an empty batch, which is enqueued and immediately
dequeued into the in-flight slot, changing the scheduler state. -/
theorem empty_array_not_rejected_cex :
    load zeroUA (some Kind.css) (some (.arr [])) none none false initState
      = ⟨some ⟨[], none, none, false, Kind.css⟩, [], []⟩ ∧
    load zeroUA (some Kind.css) (some (.arr [])) none none false initState
      ≠ initState := by
  decide

/-- C3 (amended): a request whose URL argument is absent, or is the falsy
empty string, is rejected synchronously: nothing is enqueued and — on any
state satisfying the single-slot invariant — the scheduler state is
unchanged.  (An empty URL *array*, by contrast, is truthy and is not
rejected; see the counterexample.) -/
theorem falsy_urls_rejected (ua : UA) (cb obj : Option Nat) (sc : Bool)
    (s : SchedState) (h : Inv s) :
    (∀ t : Option Kind, load ua t none cb obj sc s = s) ∧
    (∀ k : Kind, load ua (some k) (some (.str "")) cb obj sc s = s) := by
  constructor
  · intro t
    unfold load
    have he : enqueuePhase ua t none cb obj sc s = s := by cases t <;> rfl
    rw [he, drainPhase_of_inv h]
  · intro k
    unfold load
    have he : enqueuePhase ua (some k) (some (.str "")) cb obj sc s = s := rfl
    rw [he, drainPhase_of_inv h]

/-- C3 witness: on the idle initial state, a stylesheet call with the
falsy empty-string URL is a no-op. -/
theorem falsy_urls_rejected_witness :
    Inv initState ∧
    load zeroUA (some Kind.css) (some (.str "")) none none false initState
      = initState :=
  ⟨fun h => absurd rfl h,
    (falsy_urls_rejected zeroUA none none false initState
      (fun h => absurd rfl h)).2 Kind.css⟩

/-! ### Claim C5 -/

/-- C5 counterexample: submit two single-URL script batches; the first
finish signal finalises batch `a` (its remaining count reaches zero) and
dequeues batch `b`.  A spurious duplicate finish signal delivered after
batch `a`'s count has reached zero is *not* ignored: it decrements batch
`b`'s count, fires `b`'s callback and changes the scheduler state. -/
theorem spurious_finish_hits_next_batch_cex :
    finish (finish (load zeroUA (some Kind.js) (some (.arr ["b"])) (some 1) none false
        (load zeroUA (some Kind.js) (some (.arr ["a"])) (some 0) none false
          initState)))
      ≠ finish (load zeroUA (some Kind.js) (some (.arr ["b"])) (some 1) none false
        (load zeroUA (some Kind.js) (some (.arr ["a"])) (some 0) none false
          initState)) := by
  decide

/-- C5 (amended): while a batch is in flight its remaining-URL count
decreases by exactly one per finish signal and never increases; the batch
is finalised (callback log extended, batch removed from the slot, next
batch dequeued) exactly at the signal that empties its URL list, so at
most once per batch; and a finish signal delivered when *no* batch is in
flight is ignored.  However, once a successor batch has been dequeued, a
spurious duplicate signal is applied to the successor (see the
counterexample), so only signals arriving with an empty slot are ignored. -/
theorem finish_count_monotone :
    (∀ s : SchedState, s.pending = none → finish s = s) ∧
    (∀ (s : SchedState) (b : Batch), s.pending = some b → 1 < b.urls.length →
      finish s = { s with pending := some { b with urls := b.urls.tail } }) ∧
    (∀ (s : SchedState) (b : Batch), s.pending = some b → b.urls.length = 1 →
      (finish s).log = s.log ++ cbLog b ∧ (finish s).pending = s.queue.head? ∧
      (finish s).queue = s.queue.tail) := by
  refine ⟨fun s h => finish_idle h, fun s b hp hlen => finish_decrement hp hlen,
    fun s b hp hlen => ?_⟩
  rw [finish_finalize hp hlen]
  cases hq : s.queue with
  | nil => exact ⟨rfl, rfl, rfl⟩
  | cons b' rest => exact ⟨rfl, rfl, rfl⟩

/-- C5 witness: one decrement step on a concrete two-URL batch. -/
theorem finish_count_monotone_witness :
    ((⟨some ⟨["a", "b"], some 0, none, false, Kind.js⟩, [], []⟩ : SchedState).pending
      = some ⟨["a", "b"], some 0, none, false, Kind.js⟩) ∧
    1 < (Batch.mk ["a", "b"] (some 0) none false Kind.js).urls.length ∧
    finish ⟨some ⟨["a", "b"], some 0, none, false, Kind.js⟩, [], []⟩
      = ⟨some ⟨["b"], some 0, none, false, Kind.js⟩, [], []⟩ := by
  refine ⟨rfl, by decide, ?_⟩
  exact finish_count_monotone.2.1
    ⟨some ⟨["a", "b"], some 0, none, false, Kind.js⟩, [], []⟩
    ⟨["a", "b"], some 0, none, false, Kind.js⟩ rfl (by decide)

/-! ### Claim C6 -/

/-- C6 counterexample: with the scope flag set but no argument object, the
callback is invoked as a plain call — exactly the behaviour of the
neither-present case, and *not* the bound call of the argument-plus-scope
case (the dispatch branches on the argument first, so the scope flag is
ignored when the argument is absent). -/
theorem scope_without_arg_cex :
    callbackCall none true = CallForm.plain ∧
    callbackCall none true = callbackCall none false ∧
    callbackCall none true ≠ callbackCall (some 0) true := by
  decide

/-- C6 (amended): on finalisation the callback is dispatched per the
table: argument and scope flag present — bound to the argument object with
no parameters; argument present, no scope — unbound with the argument as
sole parameter; neither present — unbound with no parameters; scope flag
present but no argument — unbound with no parameters (the scope flag only
takes effect together with the argument object, which doubles as the
scope). -/
theorem callback_dispatch_table (s : SchedState) (b : Batch) (c : Nat)
    (hp : s.pending = some b) (hlen : b.urls.length = 1)
    (hcb : b.callback = some c) :
    (finish s).log = s.log ++ [⟨c, callbackCall b.obj b.scope⟩] ∧
    (∀ a : Nat, callbackCall (some a) true = CallForm.boundNoArg a) ∧
    (∀ a : Nat, callbackCall (some a) false = CallForm.windowArg a) ∧
    callbackCall none false = CallForm.plain ∧
    callbackCall none true = CallForm.plain := by
  refine ⟨?_, fun a => rfl, fun a => rfl, rfl, rfl⟩
  rw [finish_finalize hp hlen, drainPhase_log]
  simp [cbLog, hcb]

/-- C6 witness: a finalising batch with argument object 9 and scope flag
set logs a call bound to 9 with no parameters. -/
theorem callback_dispatch_table_witness :
    ((⟨some ⟨["u"], some 3, some 9, true, Kind.css⟩, [], []⟩ : SchedState).pending
      = some ⟨["u"], some 3, some 9, true, Kind.css⟩) ∧
    (finish ⟨some ⟨["u"], some 3, some 9, true, Kind.css⟩, [], []⟩).log
      = [] ++ [⟨3, callbackCall (some 9) true⟩] ∧
    callbackCall (some 9) true = CallForm.boundNoArg 9 := by
  refine ⟨rfl, ?_, ?_⟩
  · exact (callback_dispatch_table
      ⟨some ⟨["u"], some 3, some 9, true, Kind.css⟩, [], []⟩
      ⟨["u"], some 3, some 9, true, Kind.css⟩ 3 rfl (by decide) rfl).1
  · exact (callback_dispatch_table
      ⟨some ⟨["u"], some 3, some 9, true, Kind.css⟩, [], []⟩
      ⟨["u"], some 3, some 9, true, Kind.css⟩ 3 rfl (by decide) rfl).2.1 9

/-! ### Claim C2 -/

/-- C2: a submitted request of kind `k` with a nonempty URL list `us`
either enqueues exactly one batch holding the full ordered list — when
`k = css` or the profile's gecko or opera version is truthy — or enqueues
`us.length` single-URL batches in list order, of which only the last
carries the request's callback and all earlier ones carry none. -/
theorem batch_construction_policy (ua : UA) (k : Kind) (us : List String)
    (c : Nat) (obj : Option Nat) (sc : Bool) (s : SchedState) (h : us ≠ []) :
    ((k = Kind.css ∨ truthy ua.gecko = true ∨ truthy ua.opera = true) →
      (enqueuePhase ua (some k) (some (.arr us)) (some c) obj sc s).queue
        = s.queue ++ [⟨us, some c, obj, sc, k⟩]) ∧
    (¬(k = Kind.css ∨ truthy ua.gecko = true ∨ truthy ua.opera = true) →
      (enqueuePhase ua (some k) (some (.arr us)) (some c) obj sc s).queue
        = s.queue ++ splitBatches k (some c) obj sc us ∧
      (splitBatches k (some c) obj sc us).length = us.length ∧
      (splitBatches k (some c) obj sc us).map (fun b => b.urls)
        = us.map (fun u => [u]) ∧
      (splitBatches k (some c) obj sc us).map (fun b => b.callback)
        = List.replicate (us.length - 1) none ++ [some c]) := by
  constructor
  · intro hel
    show (if k = Kind.css ∨ truthy ua.gecko = true ∨ truthy ua.opera = true
        then ({ s with queue := s.queue ++ [⟨us, some c, obj, sc, k⟩] } : SchedState)
        else { s with queue := s.queue ++ splitBatches k (some c) obj sc us }).queue
      = s.queue ++ [⟨us, some c, obj, sc, k⟩]
    rw [if_pos hel]
  · intro hel
    refine ⟨?_, splitBatches_length k (some c) obj sc us,
      splitBatches_urls k (some c) obj sc us,
      splitBatches_callbacks k (some c) obj sc us h⟩
    show (if k = Kind.css ∨ truthy ua.gecko = true ∨ truthy ua.opera = true
        then ({ s with queue := s.queue ++ [⟨us, some c, obj, sc, k⟩] } : SchedState)
        else { s with queue := s.queue ++ splitBatches k (some c) obj sc us }).queue
      = s.queue ++ splitBatches k (some c) obj sc us
    rw [if_neg hel]

/-- C2 witness: two script URLs under the unknown profile split into two
single-URL batches in order, with the callback only on the second. -/
theorem batch_construction_policy_witness :
    (["a", "b"] : List String) ≠ [] ∧
    (enqueuePhase zeroUA (some Kind.js) (some (.arr ["a", "b"])) (some 7)
        none false initState).queue
      = [] ++ splitBatches Kind.js (some 7) none false ["a", "b"] ∧
    (splitBatches Kind.js (some 7) none false ["a", "b"]).map (fun b => b.callback)
      = List.replicate 1 none ++ [some 7] := by
  refine ⟨by decide, ?_, ?_⟩
  · exact ((batch_construction_policy zeroUA Kind.js ["a", "b"] 7 none false
      initState (by decide)).2 (by decide)).1
  · exact ((batch_construction_policy zeroUA Kind.js ["a", "b"] 7 none false
      initState (by decide)).2 (by decide)).2.2.2

/-! ### Claim C4 -/

/-- C4: submitting any back-to-back sequence of requests of one kind, each
with a nonempty URL list and a callback, and then delivering one finish
signal per URL, yields exactly one callback invocation per request, in
submission order, and ends with an idle scheduler; moreover while a batch
is in flight with more than one URL remaining, a finish signal only
shortens the in-flight batch — no later batch enters the slot before the
earlier one finalises. -/
theorem fifo_callback_order (ua : UA) (k : Kind)
    (reqs : List (List String × Nat)) (h : ∀ r ∈ reqs, r.1 ≠ []) :
    finishN ((reqs.map (fun r => r.1.length)).sum) (submitAll ua k reqs initState)
      = ⟨none, [], reqs.map (fun r => ⟨r.2, CallForm.plain⟩)⟩ ∧
    (∀ (s : SchedState) (b : Batch), s.pending = some b → 1 < b.urls.length →
      (finish s).pending = some { b with urls := b.urls.tail }) := by
  constructor
  · rw [submitAll_initState ua k reqs h, ← sumUrls_allBatches ua k reqs,
      run_all (allBatches ua k reqs) [] (allBatches_urls_ne_nil ua k reqs h),
      cbLogs_allBatches ua k reqs h]
    simp
  · intro s b hp hlen
    rw [finish_decrement hp hlen]

/-- C4 witness: two script submissions (one and two URLs) under the
unknown profile, then three finish signals: both callbacks fire, in
order, and the scheduler ends idle. -/
theorem fifo_callback_order_witness :
    (∀ r ∈ ([(["a"], 0), (["b", "c"], 1)] : List (List String × Nat)), r.1 ≠ []) ∧
    finishN 3 (submitAll zeroUA Kind.js [(["a"], 0), (["b", "c"], 1)] initState)
      = ⟨none, [], [⟨0, CallForm.plain⟩, ⟨1, CallForm.plain⟩]⟩ := by
  refine ⟨by decide, ?_⟩
  exact (fifo_callback_order zeroUA Kind.js [(["a"], 0), (["b", "c"], 1)]
    (by decide)).1

/-! ### Claim C7 -/

/-- C7: the completion-detection strategy for every node injected for a
batch follows the decision table on (kind, profile): a truthy trident
(`ie`) version — any kind — selects the ready-state watcher, which fires
`finish` on the first transition to `loaded` or `complete` and then
unsubscribes; otherwise a stylesheet batch under a truthy gecko or webkit
version selects a deferred timer with delay `100 *` the batch's URL count;
in every other case the node's success and failure signals are both
subscribed (`loadAndError`). -/
theorem detection_strategy_table :
    (∀ (ua : UA) (b : Batch) (p : String × Strategy), truthy ua.ie = true →
      p ∈ injectBatch ua b → p.2 = Strategy.readyState) ∧
    (∀ (ua : UA) (b : Batch) (p : String × Strategy), truthy ua.ie = false →
      b.type = Kind.css → (truthy ua.gecko = true ∨ truthy ua.webkit = true) →
      p ∈ injectBatch ua b → p.2 = Strategy.timer (100 * b.urls.length)) ∧
    (∀ (ua : UA) (b : Batch) (p : String × Strategy), truthy ua.ie = false →
      (b.type = Kind.js ∨ (truthy ua.gecko = false ∧ truthy ua.webkit = false)) →
      p ∈ injectBatch ua b → p.2 = Strategy.loadAndError) ∧
    (∀ (rs : String) (s : SchedState), rs = "loaded" ∨ rs = "complete" →
      onreadystatechange true rs s = (false, finish s)) ∧
    (∀ (rs : String) (s : SchedState), rs ≠ "loaded" → rs ≠ "complete" →
      onreadystatechange true rs s = (true, s)) ∧
    (∀ (rs : String) (s : SchedState), onreadystatechange false rs s = (false, s)) := by
  have hsel : ∀ (ua : UA) (b : Batch) (p : String × Strategy),
      p ∈ injectBatch ua b → p.2 = selectDetection b.type ua b.urls.length := by
    intro ua b p hp
    unfold injectBatch at hp
    obtain ⟨u, _, rfl⟩ := List.mem_map.mp hp
    rfl
  refine ⟨?_, ?_, ?_, ?_, ?_, ?_⟩
  · intro ua b p hie hp
    rw [hsel ua b p hp]
    unfold selectDetection
    rw [if_pos hie]
  · intro ua b p hie hcss hgw hp
    rw [hsel ua b p hp]
    unfold selectDetection
    rw [if_neg (by rw [hie]; exact Bool.false_ne_true), if_pos ⟨hcss, hgw⟩]
  · intro ua b p hie hother hp
    rw [hsel ua b p hp]
    unfold selectDetection
    rw [if_neg (by rw [hie]; exact Bool.false_ne_true), if_neg ?_]
    rintro ⟨hcss, hgw⟩
    rcases hother with hjs | ⟨hg, hw⟩
    · rw [hjs] at hcss; exact Kind.noConfusion hcss
    · rcases hgw with hgw | hgw
      · rw [hg] at hgw; exact Bool.false_ne_true hgw
      · rw [hw] at hgw; exact Bool.false_ne_true hgw
  · intro rs s hrs
    rcases hrs with hrs | hrs <;> subst hrs <;>
      simp [onreadystatechange]
  · intro rs s h1 h2
    simp [onreadystatechange, h1, h2]
  · intro rs s
    rfl

/-- C7 witness: under a concrete trident profile a script node gets the
ready-state watcher; a `loaded` transition fires `finish` and
unsubscribes. -/
theorem detection_strategy_table_witness :
    truthy (UA.mk (some 0) (some 7) (some 0) (some 0)).ie = true ∧
    ("x.js", Strategy.readyState) ∈
      injectBatch (UA.mk (some 0) (some 7) (some 0) (some 0))
        ⟨["x.js"], none, none, false, Kind.js⟩ ∧
    ("x.js", Strategy.readyState).2 = Strategy.readyState ∧
    onreadystatechange true "loaded" initState = (false, finish initState) := by
  refine ⟨by decide, by decide, ?_, ?_⟩
  · exact detection_strategy_table.1 (UA.mk (some 0) (some 7) (some 0) (some 0))
      ⟨["x.js"], none, none, false, Kind.js⟩ ("x.js", Strategy.readyState)
      (by decide) (by decide)
  · exact detection_strategy_table.2.2.2.1 "loaded" initState (Or.inl rfl)

/-! ### Claim C8 -/

/-- C8: under the dual-event strategy the node's success handler and its
failure handler are one and the same function, `finish`, so a resource's
load failure is handled exactly like its success: the same decrement of
the in-flight batch's remaining URLs, and nothing recorded that could
distinguish the two outcomes. -/
theorem failure_equals_success :
    nodeOnload Strategy.loadAndError = some finish ∧
    nodeOnerror Strategy.loadAndError = some finish ∧
    (∀ st : Strategy, nodeOnload st = nodeOnerror st) ∧
    (∀ (s : SchedState) (b : Batch), s.pending = some b → 1 < b.urls.length →
      (finish s).pending = some { b with urls := b.urls.tail }) := by
  refine ⟨rfl, rfl, fun st => ?_, fun s b hp hlen => ?_⟩
  · cases st <;> rfl
  · rw [finish_decrement hp hlen]

/-- C8 witness: applying the shared handler to a concrete in-flight batch
decrements it. -/
theorem failure_equals_success_witness :
    ((⟨some ⟨["a", "b"], none, none, false, Kind.js⟩, [], []⟩ : SchedState).pending
      = some ⟨["a", "b"], none, none, false, Kind.js⟩) ∧
    (finish ⟨some ⟨["a", "b"], none, none, false, Kind.js⟩, [], []⟩).pending
      = some ⟨["b"], none, none, false, Kind.js⟩ :=
  ⟨rfl, failure_equals_success.2.2.2
    ⟨some ⟨["a", "b"], none, none, false, Kind.js⟩, [], []⟩
    ⟨["a", "b"], none, none, false, Kind.js⟩ rfl (by decide)⟩

/-! ### Claim C9 -/

/-- C9: the capability profile is memoized — once cached, every later
call returns the cached record unchanged, and the first call computes it —
and the computation pattern-matches the identification text with
first-match-wins priority: webkit marker, then trident (`MSIE`) marker,
then gecko marker (with the `rv:` version refinement), then opera marker;
when no marker matches, the result is the record with every engine version
equal to 0. -/
theorem profile_memoized_priority :
    (∀ (u : UA) (nua : List Char), getUserAgent (some u) nua = u) ∧
    (∀ nua : List Char, getUserAgent none nua = computeUA nua) ∧
    (∀ nua c : List Char, webkitOk nua = some c →
      computeUA nua = { zeroUA with webkit := parseJSFloat c }) ∧
    (∀ nua c : List Char, webkitOk nua = none → msieOk nua = some c →
      computeUA nua = { zeroUA with ie := parseJSFloat c }) ∧
    (∀ nua : List Char, webkitOk nua = none → msieOk nua = none →
      geckoTest nua = true →
      computeUA nua = { zeroUA with gecko :=
        (match rvCapture nua with
         | some c => if c.isEmpty then some 1 else parseJSFloat c
         | none => some 1) }) ∧
    (∀ nua c : List Char, webkitOk nua = none → msieOk nua = none →
      geckoTest nua = false → operaCapture nua = some c →
      computeUA nua = { zeroUA with opera := parseJSFloat c }) ∧
    (∀ nua : List Char, webkitOk nua = none → msieOk nua = none →
      geckoTest nua = false → operaCapture nua = none →
      computeUA nua = zeroUA) := by
  refine ⟨fun u nua => rfl, fun nua => rfl, ?_, ?_, ?_, ?_, ?_⟩
  · intro nua c h1
    unfold computeUA
    rw [h1]
  · intro nua c h1 h2
    unfold computeUA
    rw [h1, h2]
  · intro nua h1 h2 h3
    unfold computeUA
    rw [h1, h2, if_pos h3]
  · intro nua c h1 h2 h3 h4
    unfold computeUA
    rw [h1, h2, if_neg (by rw [h3]; exact Bool.false_ne_true), h4]
  · intro nua h1 h2 h3 h4
    unfold computeUA
    rw [h1, h2, if_neg (by rw [h3]; exact Bool.false_ne_true), h4]

/-- C9 witness: a cached profile is returned unchanged, and concrete
identification text matching no marker yields the all-zero record. -/
theorem profile_memoized_priority_witness :
    getUserAgent (some zeroUA) "MSIE 9".data = zeroUA ∧
    webkitOk "xyz".data = none ∧
    msieOk "xyz".data = none ∧
    geckoTest "xyz".data = false ∧
    operaCapture "xyz".data = none ∧
    computeUA "xyz".data = zeroUA := by
  refine ⟨profile_memoized_priority.1 zeroUA "MSIE 9".data,
    by decide, by decide, by decide, by decide, ?_⟩
  exact profile_memoized_priority.2.2.2.2.2.2 "xyz".data
    (by decide) (by decide) (by decide) (by decide)

/-! ### Claim C10 -/

/-- C10 counterexample: at the empty-string URL the two call forms differ:
`css('')` is a no-op (the bare string is falsy and rejected), while
`css ([''])` enqueues — and brings in flight — a batch holding the empty
URL, so a single URL and its one-element list are not always
interchangeable. -/
theorem empty_string_url_cex :
    css zeroUA (.str "") none none false initState
      ≠ css zeroUA (.arr [""]) none none false initState := by
  decide

/-- C10 (amended): for every *nonempty* URL `u`, calling a public entry
point (`css` or `js`) with the single URL `u` produces exactly the same
scheduler state as calling it with the one-element list `[u]`: the bare
string is normalized to an array before batch construction (and, the
embedding being value-semantic, every enqueued batch's URL list is
independent of the caller's value, matching the source's `[].concat`
copy). -/
theorem single_url_normalization (ua : UA) (u : String) (cb obj : Option Nat)
    (sc : Bool) (s : SchedState) (h : u ≠ "") :
    css ua (.str u) cb obj sc s = css ua (.arr [u]) cb obj sc s ∧
    js ua (.str u) cb obj sc s = js ua (.arr [u]) cb obj sc s := by
  have hne : u.isEmpty = false := by
    cases he : u.isEmpty
    · rfl
    · exact absurd ((String.isEmpty_iff u).mp he) h
  constructor
  · show load ua (some Kind.css) (some (.str u)) cb obj sc s
      = load ua (some Kind.css) (some (.arr [u])) cb obj sc s
    unfold load enqueuePhase
    simp only [truthyArg, normalizeUrls, hne, Bool.not_false]
  · show load ua (some Kind.js) (some (.str u)) cb obj sc s
      = load ua (some Kind.js) (some (.arr [u])) cb obj sc s
    unfold load enqueuePhase
    simp only [truthyArg, normalizeUrls, hne, Bool.not_false]

/-- C10 witness: a concrete nonempty URL behaves identically in both call
forms. -/
theorem single_url_normalization_witness :
    ("a.js" : String) ≠ "" ∧
    js zeroUA (.str "a.js") (some 0) none false initState
      = js zeroUA (.arr ["a.js"]) (some 0) none false initState :=
  ⟨by decide, (single_url_normalization zeroUA "a.js" (some 0) none false
    initState (by decide)).2⟩

end LazyLoad
